import Mathlib

/-!
Verification of the consolidation engine in folder_flattener.py.

The development shallowly embeds the Python source. Files are byte lists
together with two environment flags describing whether the operating
system calls on them succeed: sizeOk models os.path.getsize succeeding
and readOk models open/read succeeding. The destination directory is an
association list from names to files, and the source tree is a finite
rose tree whose entry lists carry the directory listing order used by
os.scandir (the order os.walk yields names in is exactly that order).
The SHA-256 digest of a byte stream is modelled as the absorbed byte
sequence itself, fed in 4096-byte chunks as the source does; this treats
the digest as injective, which is the standard collision-free abstraction
of a cryptographic hash.
-/

/-- A file on disk: its byte content, whether os.path.getsize succeeds on
it, and whether opening and reading it succeeds. -/
structure DiskFile where
  content : List Nat
  sizeOk : Bool
  readOk : Bool
deriving DecidableEq

/-- Index of the last occurrence of a character in a character list. -/
def lastIdxOf (c : Char) : List Char → Option Nat
  | [] => none
  | a :: as =>
    match lastIdxOf c as with
    | some i => some (i + 1)
    | none => if a == c then some (0 : Nat) else none

/-- os.path.basename: the part of a path after the final slash. -/
def basename (p : String) : String :=
  match lastIdxOf '/' p.data with
  | some i => ((p.data.drop (i + 1)).asString)
  | none => p

/-- os.path.splitext on a basename: splits at the final dot, unless every
character before that dot is itself a dot (so ".bashrc" has no extension). -/
def splitext (filename : String) : String × String :=
  match lastIdxOf '.' filename.data with
  | some i =>
    if (filename.data.take i).any (fun a => a != '.') then
      ((filename.data.take i).asString, (filename.data.drop i).asString)
    else (filename, "")
  | none => (filename, "")

/-- str.lower, restricted to the character-wise lowering Lean provides. -/
def lowerStr (s : String) : String := (s.data.map Char.toLower).asString

/-- str.strip with argument ".": removes leading and trailing dots. -/
def stripDots (s : String) : String :=
  (((s.data.dropWhile (fun a => a == '.')).reverse.dropWhile
      (fun a => a == '.')).reverse).asString

/-- The 4096-byte chunks successively returned by f.read(4096), computed
with a fuel argument that is always sufficient. -/
def chunksAux : Nat → List Nat → List (List Nat)
  | 0, _ => []
  | _, [] => []
  | fuel+1, b :: bs => ((b :: bs).take 4096) :: chunksAux fuel ((b :: bs).drop 4096)

/-- The chunk sequence read from a byte stream. -/
def chunks (content : List Nat) : List (List Nat) :=
  chunksAux (content.length + 1) content

/-- get_file_hash: the SHA-256 state absorbs the chunks one by one; the
digest is modelled as the absorbed byte sequence. -/
def get_file_hash (content : List Nat) : List Nat :=
  (chunks content).foldl (fun acc chunk => acc ++ chunk) []

/-- files_are_identical from folder_flattener.py. A failing os.path.getsize
or a failing read lands in the surrounding except block, which returns
False. Otherwise sizes are compared first and, when equal, the streamed
digests are compared. -/
def files_are_identical (f1 f2 : DiskFile) : Bool :=
  if !(f1.sizeOk && f2.sizeOk) then false
  else if f1.content.length != f2.content.length then false
  else if !(f1.readOk && f2.readOk) then false
  else get_file_hash f1.content == get_file_hash f2.content

/-- Decimal digits of a natural number, most significant first, written
with structural fuel so that it evaluates in the kernel. -/
def natStrAux : Nat → Nat → List Char
  | 0, _ => []
  | fuel+1, n =>
    if n < 10 then [Char.ofNat (48 + n)]
    else natStrAux fuel (n / 10) ++ [Char.ofNat (48 + n % 10)]

/-- Decimal rendering of a natural number. -/
def natStr (n : Nat) : String := (natStrAux (n + 1) n).asString

/-- Python format specifier 03d: the decimal rendering left-padded with
zeros to at least three characters, unbounded beyond that. -/
def pad3 (n : Nat) : String :=
  if (natStr n).length ≥ 3 then natStr n
  else (List.replicate (3 - (natStr n).length) '0').asString ++ natStr n

/-- The candidate file name built in the conflict loop, mirroring the
format string that glues stem, underscore, padded counter and extension. -/
def candidateName (stem ext : String) (counter : Nat) : String :=
  stem ++ "_" ++ pad3 counter ++ ext

/-- Length of the longest name in a list of names. -/
def maxLen (names : List String) : Nat :=
  names.foldr (fun s m => max s.length m) 0

/-- The while loop of handle_name_conflict: starting at the given counter,
return the first candidate name that does not exist in the destination.
The fuel argument is always chosen large enough that the loop finds a
free candidate before it runs out (see conflictScan_spec and candidate_big_free). -/
def conflictScan (names : List String) (stem ext : String) : Nat → Nat → String
  | 0, counter => candidateName stem ext counter
  | fuel+1, counter =>
    let cand := candidateName stem ext counter
    if cand ∈ names then conflictScan names stem ext fuel (counter + 1)
    else cand

/-- handle_name_conflict from folder_flattener.py, with the destination
directory represented by the list of names present in it. If the desired
name is free it is returned unchanged; otherwise the numbered candidates
are scanned in increasing order from 1. -/
def handle_name_conflict (names : List String) (dest_name : String) : String :=
  if dest_name ∈ names then
    let stem := (splitext dest_name).1
    let ext := (splitext dest_name).2
    conflictScan names stem ext (10 ^ maxLen names) 1
  else dest_name

/-- A node of the source tree. Directory entries are listed in the order
os.scandir reports them, which os.walk preserves. -/
inductive FSTree where
  | file : DiskFile → FSTree
  | dir : List (String × FSTree) → FSTree

/-- The plain files among the entries of one directory, in listing order. -/
def filesOf : List (String × FSTree) → List (String × DiskFile)
  | [] => []
  | (n, FSTree.file f) :: es => (n, f) :: filesOf es
  | (_, FSTree.dir _) :: es => filesOf es

mutual

/-- The (dirpath, files) pairs yielded by os.walk when it reaches the
given node, in the top-down depth-first order os.walk uses: the files of
a directory are reported with it, and each subdirectory is fully
recursed into before the next entry of the same directory. -/
def walkTree (p : String) : FSTree → List (String × List (String × DiskFile))
  | FSTree.file _ => []
  | FSTree.dir es => (p, filesOf es) :: walkEntries p es

/-- The os.walk triples contributed by the subdirectories among the
entries of one directory, in listing order. -/
def walkEntries (p : String) : List (String × FSTree) → List (String × List (String × DiskFile))
  | [] => []
  | (n, t) :: es =>
    (match t with
     | FSTree.dir _ => walkTree (p ++ "/" ++ n) t
     | FSTree.file _ => []) ++ walkEntries p es

end

/-- The (dirpath, files) sequence yielded by os.walk(input_dir). A path
that does not exist or is not a directory yields nothing, because os.walk
swallows the scandir error when no error handler is installed. -/
def os_walk (input_dir : String) (tree : Option FSTree) : List (String × List (String × DiskFile)) :=
  match tree with
  | some t => walkTree input_dir t
  | none => []

/-- The per-file extension test of get_all_files: with no filter, or with
an empty (hence falsy) filter list, every file passes; otherwise the
lowered, dot-stripped extension of the file must be among the lowered,
dot-stripped filter entries. -/
def extEligible (extensions : Option (List String)) (filename : String) : Bool :=
  match extensions with
  | none => true
  | some exts =>
    if exts.isEmpty then true
    else (exts.map (fun e => stripDots (lowerStr e))).contains
          (stripDots (lowerStr (splitext filename).2))

/-- The files of one os.walk directory that pass the filter, each joined
with the directory path, in listing order. -/
def eligibleHere (extensions : Option (List String)) (p : String)
    (files : List (String × DiskFile)) : List (String × DiskFile) :=
  files.flatMap (fun nf =>
    if extEligible extensions nf.1 then [(p ++ "/" ++ nf.1, nf.2)] else [])

/-- get_all_files from folder_flattener.py: iterate the os.walk triples
and collect the filter-eligible files joined with their directory path. -/
def get_all_files (input_dir : String) (tree : Option FSTree)
    (extensions : Option (List String)) : List (String × DiskFile) :=
  (os_walk input_dir tree).flatMap (fun rf => eligibleHere extensions rf.1 rf.2)

/-- The results dictionary accumulated by flatten_folder. -/
structure Results where
  processed : Nat
  skipped : Nat
  conflicts : Nat
  errors : Nat
  error_files : List String
deriving DecidableEq

/-- The freshly initialised results dictionary. -/
def Results.empty : Results := ⟨0, 0, 0, 0, []⟩

/-- The destination directory: names currently present, each with the
file stored under that name. -/
abbrev Dest := List (String × DiskFile)

/-- The two dead branches of the conflict_resolution selector in
flatten_folder: both the "skip" and the "overwrite" arm consist of a
bare pass statement, so the computed value is discarded unchanged. -/
def conflictResolutionNoOp (conflict_resolution : String) : Unit :=
  if conflict_resolution == "skip" then ()
  else if conflict_resolution == "overwrite" then ()
  else ()

/-- The body of the for loop of flatten_folder for one source file.
placeOk says whether the shutil.move or shutil.copy2 call for a given
source path succeeds; its failure is the only exception the try block
can see, since files_are_identical catches its own. shutil.move and
shutil.copy2 act identically on the destination directory; the removal
of the source under move is not modelled because no claim observes the
source tree after a run. -/
def step (placeOk : String → Bool) (move_files : Bool) (conflict_resolution : String)
    (acc : Dest × Results) (sf : String × DiskFile) : Dest × Results :=
  let dst := acc.1
  let r := acc.2
  let filename := basename sf.1
  match List.lookup filename dst with
  | some destFile =>
    let r1 : Results := { r with conflicts := r.conflicts + 1 }
    if files_are_identical sf.2 destFile then
      (dst, { r1 with skipped := r1.skipped + 1 })
    else
      let newName := handle_name_conflict (dst.map Prod.fst) filename
      if placeOk sf.1 then
        (dst ++ [(newName, sf.2)], { r1 with processed := r1.processed + 1 })
      else
        (dst, { r1 with errors := r1.errors + 1,
                        error_files := r1.error_files ++ [sf.1] })
  | none =>
    let _dead := conflictResolutionNoOp conflict_resolution
    if placeOk sf.1 then
      (dst ++ [(filename, sf.2)], { r with processed := r.processed + 1 })
    else
      (dst, { r with errors := r.errors + 1,
                     error_files := r.error_files ++ [sf.1] })

/-- flatten_folder from folder_flattener.py. The filesystem environment
is passed explicitly: the source tree under input_dir, the initial
contents of the destination directory, and the success of each shutil
placement. os.makedirs only ensures the destination directory exists and
has no effect on the model state. -/
def flatten_folder (tree : Option FSTree) (dst0 : Dest) (placeOk : String → Bool)
    (input_dir output_dir : String) (extensions : Option (List String))
    (move_files : Bool) (conflict_resolution : String) : Dest × Results :=
  let all_files := get_all_files input_dir tree extensions
  all_files.foldl (step placeOk move_files conflict_resolution) (dst0, Results.empty)

/-! ### Lemmas about the streamed digest -/

/-- Folding list append from an accumulator is the accumulator followed
by the join. -/
theorem foldl_append_eq (ls : List (List Nat)) (acc : List Nat) :
    ls.foldl (fun a c => a ++ c) acc = acc ++ ls.flatten := by
  induction ls generalizing acc with
  | nil => simp
  | cons c ls ih => simp [ih, List.append_assoc]

/-- Joining the chunk list recovers the byte stream, for sufficient fuel. -/
theorem chunksAux_join (fuel : Nat) (l : List Nat) (h : l.length < fuel) :
    (chunksAux fuel l).flatten = l := by
  induction fuel generalizing l with
  | zero => exact absurd h (Nat.not_lt_zero _)
  | succ fuel ih =>
    cases l with
    | nil => simp [chunksAux]
    | cons b bs =>
      have hlen : ((b :: bs).drop 4096).length < fuel := by
        have h1 : ((b :: bs).drop 4096).length = (b :: bs).length - 4096 := by
          simp
        have h2 : (b :: bs).length - 4096 ≤ (b :: bs).length - 1 :=
          Nat.sub_le_sub_left (by decide) _
        have h3 : (b :: bs).length - 1 = bs.length := by simp
        have h4 : bs.length < fuel := by
          have := h
          simp at this
          omega
        omega
      simp only [chunksAux, List.flatten]
      rw [ih _ hlen, List.take_append_drop]

/-- The modelled digest of a byte stream is the stream itself. -/
theorem get_file_hash_eq (content : List Nat) : get_file_hash content = content := by
  unfold get_file_hash chunks
  rw [foldl_append_eq, chunksAux_join _ _ (Nat.lt_succ_self _)]
  simp

/-- A readable file always compares identical to itself. -/
theorem files_are_identical_self (f : DiskFile) (hs : f.sizeOk = true)
    (hr : f.readOk = true) : files_are_identical f f = true := by
  simp [files_are_identical, hs, hr]

/-! ### Lemmas about the conflict resolver -/

/-- Rendering ten to the M takes M+1 characters, given sufficient fuel. -/
theorem natStrAux_pow_length (M : Nat) : ∀ (fuel : Nat), 10 ^ M < fuel →
    (natStrAux fuel (10 ^ M)).length = M + 1 := by
  induction M with
  | zero =>
    intro fuel h
    match fuel, h with
    | fuel+1, _ => simp [natStrAux]
  | succ M ih =>
    intro fuel h
    match fuel, h with
    | fuel+1, h =>
      have hge : ¬ (10 ^ (M + 1) < 10) := by
        have : (10:Nat) ^ 1 ≤ 10 ^ (M + 1) := Nat.pow_le_pow_right (by omega) (by omega)
        simpa using this
      have hdiv : 10 ^ (M + 1) / 10 = 10 ^ M := by
        rw [Nat.pow_succ, Nat.mul_div_cancel _ (by omega)]
      have hfuel : 10 ^ M < fuel := by
        have h1 : 10 ^ M < 10 ^ (M + 1) :=
          Nat.pow_lt_pow_right (by omega) (Nat.lt_succ_self _)
        omega
      simp only [natStrAux, hge, if_false, hdiv]
      have := ih fuel hfuel
      simp [this]

/-- Length of a string built from a character list. -/
theorem asString_length (l : List Char) : (List.asString l).length = l.length := rfl

/-- Rendering ten to the M takes M+1 characters. -/
theorem natStr_pow_length (M : Nat) : (natStr (10 ^ M)).length = M + 1 := by
  unfold natStr
  rw [asString_length, natStrAux_pow_length M _ (Nat.lt_succ_self _)]

/-- Padding never shortens the rendering. -/
theorem pad3_length_ge (n : Nat) : (natStr n).length ≤ (pad3 n).length := by
  unfold pad3
  split
  · exact Nat.le_refl _
  · rw [String.length_append]
    omega

/-- Length of a candidate name in terms of its padded counter. -/
theorem candidateName_length (stem ext : String) (c : Nat) :
    (candidateName stem ext c).length
      = stem.length + 1 + (pad3 c).length + ext.length := by
  unfold candidateName
  simp [String.length_append]
  decide

/-- Every member of a name list is at most maxLen long. -/
theorem length_le_maxLen {s : String} {names : List String} (h : s ∈ names) :
    s.length ≤ maxLen names := by
  induction names with
  | nil => cases h
  | cons a as ih =>
    have hstep : maxLen (a :: as) = max a.length (maxLen as) := rfl
    cases h with
    | head => rw [hstep]; exact Nat.le_max_left _ _
    | tail _ hmem => rw [hstep]; exact Nat.le_trans (ih hmem) (Nat.le_max_right _ _)

/-- The candidate whose counter is ten to the longest present length is
longer than every present name, hence free. -/
theorem candidate_big_free (names : List String) (stem ext : String) :
    candidateName stem ext (10 ^ maxLen names) ∉ names := by
  intro hmem
  have h1 := length_le_maxLen hmem
  have h2 := candidateName_length stem ext (10 ^ maxLen names)
  have h3 := pad3_length_ge (10 ^ maxLen names)
  have h4 := natStr_pow_length (maxLen names)
  omega

/-- The scan loop returns the candidate of the least free counter at or
above its starting counter, provided a free counter lies within fuel
reach. -/
theorem conflictScan_spec (names : List String) (stem ext : String) :
    ∀ (fuel counter : Nat),
      (∃ k, counter ≤ k ∧ k < counter + fuel ∧ candidateName stem ext k ∉ names) →
      ∃ m, counter ≤ m ∧ candidateName stem ext m ∉ names ∧
        (∀ j, counter ≤ j → j < m → candidateName stem ext j ∈ names) ∧
        conflictScan names stem ext fuel counter = candidateName stem ext m := by
  intro fuel
  induction fuel with
  | zero =>
    intro counter h
    obtain ⟨k, hk1, hk2, _⟩ := h
    omega
  | succ fuel ih =>
    intro counter h
    obtain ⟨k, hk1, hk2, hk3⟩ := h
    by_cases hc : candidateName stem ext counter ∈ names
    · have hkc : counter < k := by
        rcases Nat.eq_or_lt_of_le hk1 with heq | hlt
        · subst heq; exact absurd hc hk3
        · exact hlt
      obtain ⟨m, hm1, hm2, hm3, hm4⟩ := ih (counter + 1) ⟨k, by omega, by omega, hk3⟩
      refine ⟨m, by omega, hm2, ?_, ?_⟩
      · intro j hj1 hj2
        rcases Nat.eq_or_lt_of_le hj1 with heq | hlt
        · rw [← heq]; exact hc
        · exact hm3 j hlt hj2
      · simp [conflictScan, hc, hm4]
    · refine ⟨counter, Nat.le_refl _, hc, ?_, ?_⟩
      · intro j hj1 hj2; omega
      · simp [conflictScan, hc]

/-- Full characterization of handle_name_conflict: a free desired name is
returned unchanged; a taken one is replaced by the candidate of the least
free counter at or above 1, all smaller counters being taken. -/
theorem handle_name_conflict_full (names : List String) (dest_name : String) :
    (dest_name ∉ names → handle_name_conflict names dest_name = dest_name)
    ∧ (dest_name ∈ names →
        ∃ k, 1 ≤ k
          ∧ handle_name_conflict names dest_name
              = candidateName (splitext dest_name).1 (splitext dest_name).2 k
          ∧ candidateName (splitext dest_name).1 (splitext dest_name).2 k ∉ names
          ∧ ∀ j, 1 ≤ j → j < k →
              candidateName (splitext dest_name).1 (splitext dest_name).2 j ∈ names) := by
  constructor
  · intro h
    simp [handle_name_conflict, h]
  · intro h
    have hpos : 1 ≤ 10 ^ maxLen names := Nat.one_le_pow _ _ (by omega)
    obtain ⟨m, hm1, hm2, hm3, hm4⟩ :=
      conflictScan_spec names (splitext dest_name).1 (splitext dest_name).2
        (10 ^ maxLen names) 1
        ⟨10 ^ maxLen names, hpos, by omega,
          candidate_big_free names (splitext dest_name).1 (splitext dest_name).2⟩
    refine ⟨m, hm1, ?_, hm2, hm3⟩
    simp [handle_name_conflict, h, hm4]

/-- The name handle_name_conflict returns is never a name already present. -/
theorem handle_name_conflict_fresh (names : List String) (dest_name : String) :
    handle_name_conflict names dest_name ∉ names := by
  by_cases h : dest_name ∈ names
  · obtain ⟨k, _, heq, hfree, _⟩ := (handle_name_conflict_full names dest_name).2 h
    rw [heq]; exact hfree
  · rw [(handle_name_conflict_full names dest_name).1 h]; exact h

/-! ### Lemmas about the engine loop -/

/-- Each loop iteration settles exactly one source file: it bumps exactly
one of the processed, skipped and errors counters. -/
theorem step_sum (placeOk : String → Bool) (m : Bool) (cr : String)
    (acc : Dest × Results) (sf : String × DiskFile) :
    (step placeOk m cr acc sf).2.processed + (step placeOk m cr acc sf).2.skipped
      + (step placeOk m cr acc sf).2.errors
      = acc.2.processed + acc.2.skipped + acc.2.errors + 1 := by
  cases h : List.lookup (basename sf.1) acc.1 with
  | none =>
    by_cases hp : placeOk sf.1 = true
    · simp [step, h, hp]
      omega
    · simp [step, h, hp]
      omega
  | some destFile =>
    by_cases hid : files_are_identical sf.2 destFile = true
    · simp [step, h, hid]
      omega
    · by_cases hp : placeOk sf.1 = true
      · simp [step, h, hid, hp]
        omega
      · simp [step, h, hid, hp]
        omega

/-- Summed over the whole loop, the three counters advance by exactly the
number of files handed to it. -/
theorem flatten_loop_sum (placeOk : String → Bool) (m : Bool) (cr : String)
    (files : List (String × DiskFile)) :
    ∀ acc : Dest × Results,
      (files.foldl (step placeOk m cr) acc).2.processed
        + (files.foldl (step placeOk m cr) acc).2.skipped
        + (files.foldl (step placeOk m cr) acc).2.errors
        = acc.2.processed + acc.2.skipped + acc.2.errors + files.length := by
  induction files with
  | nil => intro acc; simp
  | cons sf files ih =>
    intro acc
    simp only [List.foldl_cons]
    rw [ih (step placeOk m cr acc sf), step_sum]
    simp
    omega

/-- C2: for every run, each discovered filter-eligible file yields exactly
one outcome, so processed + skipped + errors equals the number of
discovered files. -/
theorem outcome_counts_partition (tree : Option FSTree) (dst0 : Dest)
    (placeOk : String → Bool) (input_dir output_dir : String)
    (extensions : Option (List String)) (move_files : Bool)
    (conflict_resolution : String) :
    (flatten_folder tree dst0 placeOk input_dir output_dir extensions move_files
        conflict_resolution).2.processed
      + (flatten_folder tree dst0 placeOk input_dir output_dir extensions move_files
          conflict_resolution).2.skipped
      + (flatten_folder tree dst0 placeOk input_dir output_dir extensions move_files
          conflict_resolution).2.errors
      = (get_all_files input_dir tree extensions).length := by
  have h := flatten_loop_sum placeOk move_files conflict_resolution
    (get_all_files input_dir tree extensions) (dst0, Results.empty)
  simpa [flatten_folder, Results.empty] using h

/-- C9: the conflict_resolution selector is dead configuration surface:
any two values of it give the same destination contents and the same
result counters, on every input state. -/
theorem conflict_resolution_irrelevant (tree : Option FSTree) (dst0 : Dest)
    (placeOk : String → Bool) (input_dir output_dir : String)
    (extensions : Option (List String)) (move_files : Bool) (cr1 cr2 : String) :
    flatten_folder tree dst0 placeOk input_dir output_dir extensions move_files cr1
      = flatten_folder tree dst0 placeOk input_dir output_dir extensions move_files cr2 := rfl

/-- C8: when the placement of one entry fails, the engine leaves the
destination unchanged, bumps the error counter by one, appends the source
path to the error list, and the loop goes on to fold the remaining
entries from that state; the run always returns a complete result. -/
theorem placement_failure_isolated (placeOk : String → Bool) (move_files : Bool)
    (conflict_resolution : String) (dst : Dest) (r : Results) (sf : String × DiskFile)
    (rest : List (String × DiskFile))
    (hfail : placeOk sf.1 = false)
    (hnoskip : ∀ df, List.lookup (basename sf.1) dst = some df →
        files_are_identical sf.2 df = false) :
    step placeOk move_files conflict_resolution (dst, r) sf
      = (dst, { r with
          conflicts := r.conflicts
            + (if (List.lookup (basename sf.1) dst).isSome then 1 else 0),
          errors := r.errors + 1,
          error_files := r.error_files ++ [sf.1] })
    ∧ (sf :: rest).foldl (step placeOk move_files conflict_resolution) (dst, r)
        = rest.foldl (step placeOk move_files conflict_resolution)
            (step placeOk move_files conflict_resolution (dst, r) sf) := by
  refine ⟨?_, rfl⟩
  cases h : List.lookup (basename sf.1) dst with
  | none => simp [step, h, hfail]
  | some df => simp [step, h, hfail, hnoskip df h]

/-- C8 witness: a concrete failing placement is recorded and the loop
continues. -/
theorem placement_failure_isolated_witness :
    step (fun _ => false) false ("rename") ([], Results.empty) (("s/x.wav", ⟨[0], true, true⟩))
      = ([], { Results.empty with
          conflicts := Results.empty.conflicts
            + (if (List.lookup (basename ("s/x.wav")) ([] : Dest)).isSome then 1 else 0),
          errors := Results.empty.errors + 1,
          error_files := Results.empty.error_files ++ ["s/x.wav"] })
    ∧ (("s/x.wav", (⟨[0], true, true⟩ : DiskFile)) :: []).foldl (step (fun _ => false) false ("rename")) ([], Results.empty)
        = ([] : List (String × DiskFile)).foldl (step (fun _ => false) false ("rename"))
            (step (fun _ => false) false ("rename") ([], Results.empty) (("s/x.wav", ⟨[0], true, true⟩))) :=
  placement_failure_isolated (fun _ => false) false ("rename") [] Results.empty
    (("s/x.wav", ⟨[0], true, true⟩)) [] rfl (fun df h => Option.noConfusion h)

/-- C1 amended: whenever the comparator fails to stat or read one of the
two files — the size check raises on either file, or the sizes agree and
the hashing read raises on either file — the failure is swallowed and
reported as the files being different, so the engine renames and places
the entry and records no error. -/
theorem comparator_read_failure_renames (placeOk : String → Bool) (move_files : Bool)
    (conflict_resolution : String) (dst : Dest) (r : Results) (sf : String × DiskFile)
    (destFile : DiskFile)
    (hlook : List.lookup (basename sf.1) dst = some destFile)
    (hfail : sf.2.sizeOk = false ∨ destFile.sizeOk = false
        ∨ (sf.2.content.length = destFile.content.length
            ∧ (sf.2.readOk = false ∨ destFile.readOk = false)))
    (hplace : placeOk sf.1 = true) :
    step placeOk move_files conflict_resolution (dst, r) sf
      = (dst ++ [(handle_name_conflict (dst.map Prod.fst) (basename sf.1), sf.2)],
         { r with conflicts := r.conflicts + 1, processed := r.processed + 1 }) := by
  have hid : files_are_identical sf.2 destFile = false := by
    unfold files_are_identical
    rcases hfail with h | h | ⟨hlen, hr⟩
    · simp [h]
    · simp [h]
    · rcases hr with h | h <;> simp [hlen, h]
  simp [step, hlook, hid, hplace]

/-- C1 amended witness: a concrete destination file of matching size that
cannot be read makes the engine rename and place the readable source,
with no error recorded. -/
theorem comparator_read_failure_renames_witness :
    step (fun _ => true) false ("rename")
        ([("x.wav", ⟨[1], true, false⟩)], Results.empty) (("s/x.wav", ⟨[0], true, true⟩))
      = ([("x.wav", ⟨[1], true, false⟩), ("x_001.wav", ⟨[0], true, true⟩)],
         { Results.empty with conflicts := 1, processed := 1 }) :=
  comparator_read_failure_renames (fun _ => true) false ("rename")
    [("x.wav", ⟨[1], true, false⟩)] Results.empty (("s/x.wav", ⟨[0], true, true⟩))
    ⟨[1], true, false⟩ rfl (Or.inr (Or.inr ⟨rfl, Or.inr rfl⟩)) rfl

/-- C1 counterexample: a run in which the existing destination file of
matching size cannot be read during hashing (the source itself reads and
copies fine) ends with a renamed placement and a zero error count,
where the claim demands an error outcome and no renamed placement. -/
theorem comparator_read_failure_cex :
    flatten_folder (some (FSTree.dir [("x.wav", FSTree.file ⟨[0], true, true⟩)]))
        [("x.wav", ⟨[1], true, false⟩)] (fun _ => true) ("src") ("out") none false ("rename")
      = ([("x.wav", ⟨[1], true, false⟩), ("x_001.wav", ⟨[0], true, true⟩)],
         ⟨1, 0, 1, 0, []⟩) := by decide

/-- C7: the identity comparison short-circuits to non-identical on a size
mismatch without reading content (the read flags play no role in that
case), otherwise equates the streamed whole-content digests; two
zero-length readable files are identical and two same-length files with
different content are not. -/
theorem identity_comparison_correct (f1 f2 : DiskFile) :
    (f1.sizeOk = true → f2.sizeOk = true → f1.content.length ≠ f2.content.length →
        files_are_identical f1 f2 = false)
    ∧ (f1.sizeOk = true → f2.sizeOk = true → f1.readOk = true → f2.readOk = true →
        (files_are_identical f1 f2 = true ↔ f1.content = f2.content))
    ∧ (f1.sizeOk = true → f2.sizeOk = true → f1.readOk = true → f2.readOk = true →
        f1.content = [] → f2.content = [] → files_are_identical f1 f2 = true)
    ∧ (f1.sizeOk = true → f2.sizeOk = true →
        f1.content.length = f2.content.length → f1.content ≠ f2.content →
        files_are_identical f1 f2 = false) := by
  refine ⟨?_, ?_, ?_, ?_⟩
  · intro h1 h2 hne
    simp [files_are_identical, h1, h2, hne]
  · intro h1 h2 h3 h4
    by_cases hl : f1.content.length = f2.content.length
    · simp [files_are_identical, h1, h2, h3, h4, hl, get_file_hash_eq]
    · have hcne : f1.content ≠ f2.content := fun he => hl (by rw [he])
      simp [files_are_identical, h1, h2, hl, hcne]
  · intro h1 h2 h3 h4 he1 he2
    simp [files_are_identical, h1, h2, h3, h4, he1, he2, get_file_hash_eq]
  · intro h1 h2 hl hne
    by_cases h3 : f1.readOk = true
    · by_cases h4 : f2.readOk = true
      · simp [files_are_identical, h1, h2, h3, h4, hl, get_file_hash_eq, hne]
      · simp [files_are_identical, h1, h2, h4]
    · simp [files_are_identical, h1, h2, h3]

/-- C7 witness: two concrete zero-length files compare identical, and two
concrete one-byte files differing in that byte compare non-identical. -/
theorem identity_comparison_correct_witness :
    files_are_identical ⟨[], true, true⟩ ⟨[], true, true⟩ = true
    ∧ files_are_identical ⟨[0], true, true⟩ ⟨[1], true, true⟩ = false :=
  ⟨(identity_comparison_correct ⟨[], true, true⟩ ⟨[], true, true⟩).2.2.1
      rfl rfl rfl rfl rfl rfl,
   (identity_comparison_correct ⟨[0], true, true⟩ ⟨[1], true, true⟩).2.2.2
      rfl rfl rfl (by decide)⟩

/-- C5: a free desired name is returned unchanged; a taken one becomes the
candidate stem_NNN.ext of the least counter at or above 1 whose candidate
is not present, every smaller counter being taken. -/
theorem name_conflict_resolution_spec (names : List String) (dest_name : String) :
    (dest_name ∉ names → handle_name_conflict names dest_name = dest_name)
    ∧ (dest_name ∈ names →
        ∃ k, 1 ≤ k
          ∧ handle_name_conflict names dest_name
              = candidateName (splitext dest_name).1 (splitext dest_name).2 k
          ∧ candidateName (splitext dest_name).1 (splitext dest_name).2 k ∉ names
          ∧ ∀ j, 1 ≤ j → j < k →
              candidateName (splitext dest_name).1 (splitext dest_name).2 j ∈ names) :=
  handle_name_conflict_full names dest_name

/-- C5 witness: on a concrete occupied destination the resolver returns
the first numbered candidate. -/
theorem name_conflict_resolution_spec_witness :
    ∃ k, 1 ≤ k
      ∧ handle_name_conflict ["x.wav"] ("x.wav")
          = candidateName ("x") (".wav") k
      ∧ candidateName ("x") (".wav") k ∉ ["x.wav"]
      ∧ ∀ j, 1 ≤ j → j < k → candidateName ("x") (".wav") j ∈ ["x.wav"] :=
  (name_conflict_resolution_spec ["x.wav"] ("x.wav")).2 (by decide)

/-- C10: for every finite destination the scan terminates with a name
that is not present; when the desired name was taken, the returned name
is a numbered candidate. -/
theorem conflict_scan_terminating_free (names : List String) (dest_name : String) :
    names.contains (handle_name_conflict names dest_name) = false
    ∧ (dest_name ∈ names →
        ∃ k, 1 ≤ k ∧ handle_name_conflict names dest_name
            = candidateName (splitext dest_name).1 (splitext dest_name).2 k) := by
  constructor
  · have h := handle_name_conflict_fresh names dest_name
    simpa using h
  · intro hmem
    obtain ⟨k, hk1, hk2, _, _⟩ := (handle_name_conflict_full names dest_name).2 hmem
    exact ⟨k, hk1, hk2⟩

/-- C10 witness: on a concrete occupied destination the scan stops at a
concrete free numbered candidate. -/
theorem conflict_scan_terminating_free_witness :
    ∃ k, 1 ≤ k ∧ handle_name_conflict ["x_001.wav", "x.wav"] ("x.wav")
        = candidateName ("x") (".wav") k :=
  (conflict_scan_terminating_free ["x_001.wav", "x.wav"] ("x.wav")).2 (by decide)

/-! ### The order discovery hands files to the engine -/

mutual

/-- Description of the order in which discovery emits files: the
filter-eligible files directly in a directory come first, in listing
order, followed by the contents of each subdirectory in turn, fully, in
listing order. This is the depth-first order of os.walk, stated directly
on the tree; no lexicographic sorting is involved. -/
def dfsTree (extensions : Option (List String)) (p : String) : FSTree → List (String × DiskFile)
  | FSTree.file _ => []
  | FSTree.dir es => eligibleHere extensions p (filesOf es) ++ dfsEntries extensions p es

/-- The files contributed by the subdirectories among the entries of one
directory, in listing order. -/
def dfsEntries (extensions : Option (List String)) (p : String) : List (String × FSTree) → List (String × DiskFile)
  | [] => []
  | (n, t) :: es =>
    (match t with
     | FSTree.dir _ => dfsTree extensions (p ++ "/" ++ n) t
     | FSTree.file _ => []) ++ dfsEntries extensions p es

end

mutual

theorem walkTree_files (extensions : Option (List String)) (p : String) :
    ∀ t : FSTree,
      (walkTree p t).flatMap (fun rf => eligibleHere extensions rf.1 rf.2)
        = dfsTree extensions p t
  | FSTree.file _ => rfl
  | FSTree.dir es => by
      simp only [walkTree, dfsTree, List.flatMap_cons]
      rw [walkEntries_files extensions p es]

theorem walkEntries_files (extensions : Option (List String)) (p : String) :
    ∀ es : List (String × FSTree),
      (walkEntries p es).flatMap (fun rf => eligibleHere extensions rf.1 rf.2)
        = dfsEntries extensions p es
  | [] => rfl
  | (n, t) :: es => by
      cases t with
      | file f =>
          simp only [walkEntries, dfsEntries, List.flatMap_append, List.flatMap_nil,
            List.nil_append]
          exact walkEntries_files extensions p es
      | dir ds =>
          simp only [walkEntries, dfsEntries, List.flatMap_append]
          rw [walkTree_files extensions (p ++ "/" ++ n) (FSTree.dir ds),
            walkEntries_files extensions p es]

end

/-- C3 amended: get_all_files emits exactly the depth-first os.walk order
described by dfsTree, for every tree; it imposes no lexicographic sort. -/
theorem discovery_order_walk (input_dir : String) (tree : Option FSTree)
    (extensions : Option (List String)) :
    get_all_files input_dir tree extensions
      = tree.elim [] (dfsTree extensions input_dir) := by
  cases tree with
  | none => rfl
  | some t =>
      simp only [get_all_files, os_walk, Option.elim]
      exact walkTree_files extensions input_dir t

/-- C3 counterexample: a tree whose listing order is reversed relative to
the lexicographic order of the relative paths is handed to the engine in
listing order, with the lexicographically larger path first. -/
theorem discovery_order_cex :
    ((get_all_files ("s")
        (some (FSTree.dir [("b.txt", FSTree.file ⟨[0], true, true⟩),
                           ("a.txt", FSTree.file ⟨[0], true, true⟩)]))
        none).map Prod.fst = ["s/b.txt", "s/a.txt"])
    ∧ ("s/a.txt").data < ("s/b.txt").data := by decide

/-- C4 amended: a source root that does not exist or is not a directory
makes discovery yield nothing, and the run returns normally with the
all-zero result and an untouched destination; no exception is raised. -/
theorem missing_root_returns_empty (dst0 : Dest) (placeOk : String → Bool)
    (input_dir output_dir : String) (extensions : Option (List String))
    (move_files : Bool) (conflict_resolution : String) (f : DiskFile) :
    flatten_folder none dst0 placeOk input_dir output_dir extensions move_files
        conflict_resolution = (dst0, Results.empty)
    ∧ flatten_folder (some (FSTree.file f)) dst0 placeOk input_dir output_dir
        extensions move_files conflict_resolution = (dst0, Results.empty)
    ∧ get_all_files input_dir none extensions = []
    ∧ get_all_files input_dir (some (FSTree.file f)) extensions = [] :=
  ⟨rfl, rfl, rfl, rfl⟩

/-- C4 counterexample: at a concrete nonexistent source root the run
returns a normal all-zero result instead of failing with an error. -/
theorem missing_root_cex :
    flatten_folder none [("keep.wav", ⟨[7], true, true⟩)] (fun _ => true)
        ("missing") ("out") none false ("rename")
      = ([("keep.wav", ⟨[7], true, true⟩)], ⟨0, 0, 0, 0, []⟩) := rfl

/-! ### Copy-mode re-runs -/

/-- The basename of a discovered source file. -/
abbrev bn (sf : String × DiskFile) : String := basename sf.1

/-- A lookup that misses the front part of an appended list continues in
the back part. -/
theorem lookup_append_of_none (a : String) (l1 l2 : Dest)
    (h : List.lookup a l1 = none) :
    List.lookup a (l1 ++ l2) = List.lookup a l2 := by
  induction l1 with
  | nil => rfl
  | cons kv l1 ih =>
    obtain ⟨k, v⟩ := kv
    cases hab : (a == k) with
    | true => simp [List.lookup, hab] at h
    | false =>
      simp only [List.lookup, List.cons_append, hab] at h ⊢
      exact ih h

/-- A lookup with a different key misses a singleton list. -/
theorem lookup_singleton_ne (a b : String) (v : DiskFile) (h : a ≠ b) :
    List.lookup a [(b, v)] = none := by
  have hbeq : (a == b) = false := beq_eq_false_iff_ne.mpr h
  simp [List.lookup, hbeq]

/-- First run over files with pairwise distinct basenames, none of which
is present in the destination, all placements succeeding: every file is
placed at its own basename, in order. -/
theorem run_fresh_places (placeOk : String → Bool) (m : Bool) (cr : String) :
    ∀ (files : List (String × DiskFile)) (dst : Dest) (r : Results),
      (files.map bn).Nodup →
      (∀ sf ∈ files, List.lookup (bn sf) dst = none) →
      (∀ sf ∈ files, placeOk sf.1 = true) →
      files.foldl (step placeOk m cr) (dst, r)
        = (dst ++ files.map (fun sf => (bn sf, sf.2)),
           { r with processed := r.processed + files.length }) := by
  intro files
  induction files with
  | nil =>
    intro dst r _ _ _
    simp
  | cons sf files ih =>
    intro dst r hnodup hfresh hplace
    have hfr : List.lookup (basename sf.1) dst = none :=
      hfresh sf (List.mem_cons_self _ _)
    have hpl : placeOk sf.1 = true := hplace sf (List.mem_cons_self _ _)
    have hstep : step placeOk m cr (dst, r) sf
        = (dst ++ [(basename sf.1, sf.2)], { r with processed := r.processed + 1 }) := by
      simp [step, hfr, hpl]
    have hnodup2 : (files.map bn).Nodup := by
      simp only [List.map_cons, List.nodup_cons] at hnodup
      exact hnodup.2
    have hnotin : bn sf ∉ files.map bn := by
      simp only [List.map_cons, List.nodup_cons] at hnodup
      exact hnodup.1
    have hfresh2 : ∀ sf2 ∈ files, List.lookup (bn sf2) (dst ++ [(bn sf, sf.2)]) = none := by
      intro sf2 hmem
      have hne : bn sf2 ≠ bn sf := by
        intro heq
        exact hnotin (heq ▸ List.mem_map_of_mem bn hmem)
      rw [lookup_append_of_none _ _ _ (hfresh sf2 (List.mem_cons_of_mem _ hmem)),
        lookup_singleton_ne _ _ _ hne]
    have hplace2 : ∀ sf2 ∈ files, placeOk sf2.1 = true :=
      fun sf2 hmem => hplace sf2 (List.mem_cons_of_mem _ hmem)
    simp only [List.foldl_cons, hstep]
    rw [ih (dst ++ [(bn sf, sf.2)]) { r with processed := r.processed + 1 }
      hnodup2 hfresh2 hplace2]
    simp [List.append_assoc]
    omega

/-- Second run over files each of which is already stored, identical,
under its own basename: every file is skipped and counted as a conflict;
the destination does not change. -/
theorem run_identical_skips (placeOk : String → Bool) (m : Bool) (cr : String) :
    ∀ (files : List (String × DiskFile)) (dst : Dest) (r : Results),
      (∀ sf ∈ files, sf.2.sizeOk = true ∧ sf.2.readOk = true) →
      (∀ sf ∈ files, List.lookup (bn sf) dst = some sf.2) →
      files.foldl (step placeOk m cr) (dst, r)
        = (dst, { r with skipped := r.skipped + files.length,
                         conflicts := r.conflicts + files.length }) := by
  intro files
  induction files with
  | nil =>
    intro dst r _ _
    simp
  | cons sf files ih =>
    intro dst r hok hlook
    have hid : files_are_identical sf.2 sf.2 = true :=
      files_are_identical_self _ (hok sf (List.mem_cons_self _ _)).1
        (hok sf (List.mem_cons_self _ _)).2
    have hstep : step placeOk m cr (dst, r) sf
        = (dst, { r with skipped := r.skipped + 1, conflicts := r.conflicts + 1 }) := by
      simp [step, hlook sf (List.mem_cons_self _ _), hid]
    simp only [List.foldl_cons, hstep]
    rw [ih dst _ (fun sf2 h => hok sf2 (List.mem_cons_of_mem _ h))
      (fun sf2 h => hlook sf2 (List.mem_cons_of_mem _ h))]
    simp
    omega

/-- Looking a basename up in the association list the first run builds
finds exactly the file placed under it, given distinct basenames. -/
theorem lookup_map_bn_self :
    ∀ (files : List (String × DiskFile)), (files.map bn).Nodup →
      ∀ sf ∈ files,
        List.lookup (bn sf) (files.map (fun sf2 => (bn sf2, sf2.2))) = some sf.2 := by
  intro files
  induction files with
  | nil =>
    intro _ sf h
    cases h
  | cons a files ih =>
    intro hnodup sf hmem
    have hnotin : bn a ∉ files.map bn := by
      simp only [List.map_cons, List.nodup_cons] at hnodup
      exact hnodup.1
    have hnodup2 : (files.map bn).Nodup := by
      simp only [List.map_cons, List.nodup_cons] at hnodup
      exact hnodup.2
    cases hmem with
    | head => simp [List.lookup]
    | tail _ hmem2 =>
      have hne : bn sf ≠ bn a := by
        intro heq
        exact hnotin (heq ▸ List.mem_map_of_mem bn hmem2)
      have hbeq : (bn sf == bn a) = false := by simp [hne]
      simp only [List.map_cons, List.lookup, hbeq]
      exact ih hnodup2 sf hmem2

/-- C6 amended: copy-mode idempotence holds when the discovered files
have pairwise distinct basenames, are readable, all placements succeed
and the destination starts empty: a second run over the unchanged source
against the destination the first run produced processes nothing and
skips every file. (The unrestricted claim is refuted by
copy_not_idempotent_cex: a renamed placement in the first run is placed
again, under a fresh suffix, by the second run.) -/
theorem copy_idempotent_distinct_basenames (tree : Option FSTree)
    (placeOk : String → Bool) (input_dir output_dir : String)
    (extensions : Option (List String)) (cr1 cr2 : String)
    (hnodup : ((get_all_files input_dir tree extensions).map bn).Nodup)
    (hok : ∀ sf ∈ get_all_files input_dir tree extensions,
        sf.2.sizeOk = true ∧ sf.2.readOk = true)
    (hplace : ∀ sf ∈ get_all_files input_dir tree extensions, placeOk sf.1 = true) :
    (flatten_folder tree
        (flatten_folder tree [] placeOk input_dir output_dir extensions false cr1).1
        placeOk input_dir output_dir extensions false cr2).2.processed = 0
    ∧ (flatten_folder tree
        (flatten_folder tree [] placeOk input_dir output_dir extensions false cr1).1
        placeOk input_dir output_dir extensions false cr2).2.skipped
        = (get_all_files input_dir tree extensions).length := by
  have h1 : (flatten_folder tree [] placeOk input_dir output_dir extensions false cr1).1
      = (get_all_files input_dir tree extensions).map (fun sf => (bn sf, sf.2)) := by
    unfold flatten_folder
    rw [run_fresh_places placeOk false cr1 (get_all_files input_dir tree extensions)
      [] Results.empty hnodup (fun sf _ => rfl) hplace]
    simp
  have h2 : flatten_folder tree
      ((get_all_files input_dir tree extensions).map (fun sf => (bn sf, sf.2)))
      placeOk input_dir output_dir extensions false cr2
      = ((get_all_files input_dir tree extensions).map (fun sf => (bn sf, sf.2)),
         { Results.empty with
             skipped := Results.empty.skipped
               + (get_all_files input_dir tree extensions).length,
             conflicts := Results.empty.conflicts
               + (get_all_files input_dir tree extensions).length }) := by
    unfold flatten_folder
    exact run_identical_skips placeOk false cr2 (get_all_files input_dir tree extensions)
      _ Results.empty hok (lookup_map_bn_self (get_all_files input_dir tree extensions) hnodup)
  rw [h1, h2]
  simp [Results.empty]

/-- C6 witness: a concrete two-file source with distinct basenames is
fully skipped by the second copy run. -/
theorem copy_idempotent_distinct_basenames_witness :
    (flatten_folder (some (FSTree.dir [("a.wav", FSTree.file ⟨[0], true, true⟩),
          ("b.wav", FSTree.file ⟨[1], true, true⟩)]))
        (flatten_folder (some (FSTree.dir [("a.wav", FSTree.file ⟨[0], true, true⟩),
            ("b.wav", FSTree.file ⟨[1], true, true⟩)]))
          [] (fun _ => true) ("s") ("d") none false ("rename")).1
        (fun _ => true) ("s") ("d") none false ("rename")).2.processed = 0
    ∧ (flatten_folder (some (FSTree.dir [("a.wav", FSTree.file ⟨[0], true, true⟩),
          ("b.wav", FSTree.file ⟨[1], true, true⟩)]))
        (flatten_folder (some (FSTree.dir [("a.wav", FSTree.file ⟨[0], true, true⟩),
            ("b.wav", FSTree.file ⟨[1], true, true⟩)]))
          [] (fun _ => true) ("s") ("d") none false ("rename")).1
        (fun _ => true) ("s") ("d") none false ("rename")).2.skipped
        = (get_all_files ("s") (some (FSTree.dir [("a.wav", FSTree.file ⟨[0], true, true⟩),
            ("b.wav", FSTree.file ⟨[1], true, true⟩)])) none).length :=
  copy_idempotent_distinct_basenames
    (some (FSTree.dir [("a.wav", FSTree.file ⟨[0], true, true⟩),
        ("b.wav", FSTree.file ⟨[1], true, true⟩)]))
    (fun _ => true) ("s") ("d") none ("rename") ("rename")
    (by decide) (by decide) (by decide)

/-- C6 counterexample: with two same-named, different-content source
files, the first run renames one of them, and the second run over the
unchanged source and the produced destination places it again under a
fresh suffix: processed is 1 and skipped is 1, not 0 and 2 as the claim
requires. -/
theorem copy_not_idempotent_cex :
    (flatten_folder (some (FSTree.dir
          [("a", FSTree.dir [("x.wav", FSTree.file ⟨[0], true, true⟩)]),
           ("b", FSTree.dir [("x.wav", FSTree.file ⟨[1], true, true⟩)])]))
        (flatten_folder (some (FSTree.dir
            [("a", FSTree.dir [("x.wav", FSTree.file ⟨[0], true, true⟩)]),
             ("b", FSTree.dir [("x.wav", FSTree.file ⟨[1], true, true⟩)])]))
          [] (fun _ => true) ("s") ("d") none false ("rename")).1
        (fun _ => true) ("s") ("d") none false ("rename")).2.processed = 1
    ∧ (flatten_folder (some (FSTree.dir
          [("a", FSTree.dir [("x.wav", FSTree.file ⟨[0], true, true⟩)]),
           ("b", FSTree.dir [("x.wav", FSTree.file ⟨[1], true, true⟩)])]))
        (flatten_folder (some (FSTree.dir
            [("a", FSTree.dir [("x.wav", FSTree.file ⟨[0], true, true⟩)]),
             ("b", FSTree.dir [("x.wav", FSTree.file ⟨[1], true, true⟩)])]))
          [] (fun _ => true) ("s") ("d") none false ("rename")).1
        (fun _ => true) ("s") ("d") none false ("rename")).2.skipped = 1
    ∧ (flatten_folder (some (FSTree.dir
          [("a", FSTree.dir [("x.wav", FSTree.file ⟨[0], true, true⟩)]),
           ("b", FSTree.dir [("x.wav", FSTree.file ⟨[1], true, true⟩)])]))
        (flatten_folder (some (FSTree.dir
            [("a", FSTree.dir [("x.wav", FSTree.file ⟨[0], true, true⟩)]),
             ("b", FSTree.dir [("x.wav", FSTree.file ⟨[1], true, true⟩)])]))
          [] (fun _ => true) ("s") ("d") none false ("rename")).1
        (fun _ => true) ("s") ("d") none false ("rename")).1.map Prod.fst
        = ["x.wav", "x_001.wav", "x_002.wav"] := by decide
